import Mathlib

/-!
# Verification of the DaxStudio LSP bridge (`src/dax_lsp_server.py`)

This file gives a shallow embedding of the parts of `dax_lsp_server.py`
exercised by the specification claims:

* a model of Python/JSON values (`Json`), with JSON numbers modelled as
  integers (the repository only ever exchanges integer coordinates and
  enum codes over the wire; no claim involves floating point);
* `dumps`/`loads`, modelling `json.dumps`/`json.loads` as used on the
  bridge wire (`dumps` emits the stock separators `", "` / `": "` and the
  standard escapes; non-ASCII characters are emitted literally, which
  changes only the byte-level spelling of the same JSON text, not its
  framing or the round-trip behaviour; `loads` is a recursive-descent
  JSON reader);
* `DaxStudioBridge.send_command` as a pure state/trace function, with the
  child process's observable I/O behaviour (`ChildIO`) and the lock
  supplied explicitly;
* the adapter-layer helpers `convert_range`, `convert_completion_kind`,
  `convert_diagnostic_severity` and the response-processing slices of the
  `completion`, `hover` and `diagnostic` handlers, in an `Except PyErr`
  monad so that Python exceptions (`AttributeError` on `.get` of a
  non-dict, `TypeError` on `in`/iteration of a non-container, JSON decode
  errors) are explicit.
-/

/- JSON / Python values, as exchanged on the bridge wire.  Arrays and
objects carry their own list types so that all recursions and inductions
below are plain mutual structural ones. -/
mutual

inductive Json where
  | null : Json
  | bool (b : Bool) : Json
  | num (n : Int) : Json
  | str (s : String) : Json
  | arr (xs : JsonList) : Json
  | obj (kvs : JsonObj) : Json

inductive JsonList where
  | nil : JsonList
  | cons (x : Json) (xs : JsonList) : JsonList

inductive JsonObj where
  | nil : JsonObj
  | cons (k : String) (v : Json) (kvs : JsonObj) : JsonObj

end

namespace JsonList

def toList : JsonList → List Json
  | .nil => []
  | .cons x xs => x :: toList xs

end JsonList

namespace JsonObj

/-- Key lookup in an object, first occurrence (keys of Python dicts are
unique). -/
def lookup : JsonObj → String → Option Json
  | .nil, _ => none
  | .cons k v kvs, key => if k = key then some v else lookup kvs key

def keys : JsonObj → List String
  | .nil => []
  | .cons k _ kvs => k :: keys kvs

end JsonObj

namespace Json

/-- Python truthiness of a JSON value (`if not x` tests). -/
def truthy : Json → Bool
  | .null => false
  | .bool b => b
  | .num n => decide (n ≠ 0)
  | .str s => decide (s.data ≠ [])
  | .arr .nil => false
  | .arr (.cons _ _) => true
  | .obj .nil => false
  | .obj (.cons _ _ _) => true

end Json

mutual

/- Structural equality of JSON values (Python equality on the images of
json.loads). -/
def jeq : Json → Json → Bool
  | .null, .null => true
  | .bool a, .bool b => a == b
  | .num a, .num b => a == b
  | .str a, .str b => a == b
  | .arr a, .arr b => jeqList a b
  | .obj a, .obj b => jeqObj a b
  | _, _ => false

def jeqList : JsonList → JsonList → Bool
  | .nil, .nil => true
  | .cons x xs, .cons y ys => jeq x y && jeqList xs ys
  | _, _ => false

def jeqObj : JsonObj → JsonObj → Bool
  | .nil, .nil => true
  | .cons k v kvs, .cons l w lws => k == l && jeq v w && jeqObj kvs lws
  | _, _ => false

end

/-! ## Serialization: `json.dumps` -/

/-- Hex digit character (lowercase, as `json.dumps` emits). -/
def hexDigit (d : Nat) : Char :=
  if d < 10 then Char.ofNat (48 + d) else Char.ofNat (87 + d)

/-- Four-digit hex spelling of `n`, used for `\uXXXX` escapes. -/
def hex4 (n : Nat) : List Char :=
  [hexDigit (n / 4096 % 16), hexDigit (n / 256 % 16),
   hexDigit (n / 16 % 16), hexDigit (n % 16)]

/-- JSON string escaping of one character, following `json.dumps`:
quote, backslash and the named control characters get two-character
escapes, the remaining control characters get `\u00XX`, and everything
else is emitted literally. -/
def escChar (c : Char) : List Char :=
  if c = '"' then ['\\', '"']
  else if c = '\\' then ['\\', '\\']
  else if c = '\n' then ['\\', 'n']
  else if c = '\r' then ['\\', 'r']
  else if c = '\t' then ['\\', 't']
  else if c = '\x08' then ['\\', 'b']
  else if c = '\x0c' then ['\\', 'f']
  else if c.toNat < 32 then '\\' :: 'u' :: hex4 c.toNat
  else [c]

def escList : List Char → List Char
  | [] => []
  | c :: cs => escChar c ++ escList cs

/-- A JSON string literal: opening quote, escaped body, closing quote. -/
def printStr (s : String) : List Char :=
  '"' :: escList s.data ++ ['"']

/-- Decimal digits of a natural number, most significant first. -/
def natDigits (m : Nat) : List Char :=
  if m = 0 then ['0']
  else ((Nat.digits 10 m).map (fun d => Char.ofNat (48 + d))).reverse

/-- Decimal spelling of an integer, as `str(n)` produces. -/
def printNum (n : Int) : List Char :=
  if n < 0 then '-' :: natDigits n.natAbs else natDigits n.natAbs

mutual

/- Serialization of a JSON value, following json.dumps with its
default separators. -/
def printV : Json → List Char
  | .null => "null".data
  | .bool true => "true".data
  | .bool false => "false".data
  | .num n => printNum n
  | .str s => printStr s
  | .arr .nil => ['[', ']']
  | .arr (.cons x xs) => '[' :: (printV x ++ printItems xs) ++ [']']
  | .obj .nil => ['{', '}']
  | .obj (.cons k v kvs) =>
      '{' :: (printStr k ++ ':' :: ' ' :: printV v ++ printMembers kvs) ++ ['}']

/-- The remaining array elements, each preceded by `", "`. -/
def printItems : JsonList → List Char
  | .nil => []
  | .cons x xs => ',' :: ' ' :: printV x ++ printItems xs

/-- The remaining object members, each preceded by `", "`. -/
def printMembers : JsonObj → List Char
  | .nil => []
  | .cons k v kvs => ',' :: ' ' :: printStr k ++ ':' :: ' ' :: printV v ++ printMembers kvs

end

/-- `json.dumps`. -/
def dumps (v : Json) : String := ⟨printV v⟩

/-! ## Deserialization: `json.loads` -/

/-- JSON insignificant whitespace. -/
def isJsonWs (c : Char) : Bool :=
  c = ' ' || c = '\t' || c = '\n' || c = '\r'

def skipWs (cs : List Char) : List Char := cs.dropWhile isJsonWs

/-- Value of a hex digit character. -/
def hexVal (c : Char) : Option Nat :=
  if c.isDigit then some (c.toNat - 48)
  else if 'a' ≤ c && c ≤ 'f' then some (c.toNat - 87)
  else if 'A' ≤ c && c ≤ 'F' then some (c.toNat - 55)
  else none

/-- Decoding of a single-character string escape. -/
def escDecode (c : Char) : Option Char :=
  if c = '"' then some '"'
  else if c = '\\' then some '\\'
  else if c = '/' then some '/'
  else if c = 'b' then some '\x08'
  else if c = 'f' then some '\x0c'
  else if c = 'n' then some '\n'
  else if c = 'r' then some '\r'
  else if c = 't' then some '\t'
  else none

/-- Read the body of a string literal (the opening quote is already
consumed) up to the closing quote, decoding escapes. -/
def parseStr : List Char → Option (List Char × List Char)
  | [] => none
  | c :: rest =>
    if c = '"' then some ([], rest)
    else if c = '\\' then
      match rest with
      | [] => none
      | e :: rest2 =>
        if e = 'u' then
          match rest2 with
          | h1 :: h2 :: h3 :: h4 :: rest3 =>
            match hexVal h1, hexVal h2, hexVal h3, hexVal h4 with
            | some v1, some v2, some v3, some v4 =>
              match parseStr rest3 with
              | some (s, r) =>
                  some (Char.ofNat (((v1 * 16 + v2) * 16 + v3) * 16 + v4) :: s, r)
              | none => none
            | _, _, _, _ => none
          | _ => none
        else
          match escDecode e with
          | some d =>
            match parseStr rest2 with
            | some (s, r) => some (d :: s, r)
            | none => none
          | none => none
    else
      match parseStr rest with
      | some (s, r) => some (c :: s, r)
      | none => none

/-- Read a run of decimal digits as a natural number. -/
def parseNat (cs : List Char) : Option (Nat × List Char) :=
  let ds := cs.takeWhile Char.isDigit
  if ds = [] then none
  else some (ds.foldl (fun a c => a * 10 + (c.toNat - 48)) 0, cs.dropWhile Char.isDigit)

mutual

/- Recursive-descent JSON value reader.  The fuel argument only bounds
the recursion depth; `loads` below supplies one unit per input character,
which is always enough. -/
def parseValue : Nat → List Char → Option (Json × List Char)
  | 0, _ => none
  | fuel + 1, cs =>
    match skipWs cs with
    | [] => none
    | c :: rest =>
      if c = 'n' then
        match rest with
        | 'u' :: 'l' :: 'l' :: r => some (.null, r)
        | _ => none
      else if c = 't' then
        match rest with
        | 'r' :: 'u' :: 'e' :: r => some (.bool true, r)
        | _ => none
      else if c = 'f' then
        match rest with
        | 'a' :: 'l' :: 's' :: 'e' :: r => some (.bool false, r)
        | _ => none
      else if c = '"' then
        match parseStr rest with
        | some (s, r) => some (.str ⟨s⟩, r)
        | none => none
      else if c = '-' then
        match parseNat rest with
        | some (m, r) => some (.num (-(m : Int)), r)
        | none => none
      else if c.isDigit then
        match parseNat (c :: rest) with
        | some (m, r) => some (.num (m : Int), r)
        | none => none
      else if c = '[' then
        if (skipWs rest).head? = some ']' then some (.arr .nil, (skipWs rest).tail)
        else
          match parseItems fuel (skipWs rest) with
          | some (xs, r) => some (.arr xs, r)
          | none => none
      else if c = '{' then
        if (skipWs rest).head? = some '}' then some (.obj .nil, (skipWs rest).tail)
        else
          match parseMembers fuel (skipWs rest) with
          | some (kvs, r) => some (.obj kvs, r)
          | none => none
      else none

/- One or more comma-separated array elements followed by the closing
bracket. -/
def parseItems : Nat → List Char → Option (JsonList × List Char)
  | 0, _ => none
  | fuel + 1, cs =>
    match parseValue fuel cs with
    | none => none
    | some (v, r) =>
      match skipWs r with
      | ',' :: r2 =>
        match parseItems fuel r2 with
        | some (vs, r3) => some (.cons v vs, r3)
        | none => none
      | ']' :: r2 => some (.cons v .nil, r2)
      | _ => none

/- One or more comma-separated object members followed by the closing
brace. -/
def parseMembers : Nat → List Char → Option (JsonObj × List Char)
  | 0, _ => none
  | fuel + 1, cs =>
    match skipWs cs with
    | '"' :: r =>
      match parseStr r with
      | none => none
      | some (k, r2) =>
        match skipWs r2 with
        | ':' :: r3 =>
          match parseValue fuel r3 with
          | none => none
          | some (v, r4) =>
            match skipWs r4 with
            | ',' :: r5 =>
              match parseMembers fuel r5 with
              | some (kvs, r6) => some (.cons ⟨k⟩ v kvs, r6)
              | none => none
            | '}' :: r5 => some (.cons ⟨k⟩ v .nil, r5)
            | _ => none
        | _ => none
    | _ => none

end

/-- `json.loads`: read one JSON value, allowing surrounding whitespace
and rejecting trailing garbage. -/
def loads (s : String) : Option Json :=
  match parseValue (s.data.length + 1) s.data with
  | some (v, rest) => if skipWs rest = [] then some v else none
  | none => none

/-- The whitespace set of Python's `str.strip`. -/
def isPyWs (c : Char) : Bool :=
  c = ' ' || c = '\t' || c = '\n' || c = '\r' || c = '\x0b' || c = '\x0c'

/-- Python `str.strip()`. -/
def pyStrip (s : String) : String :=
  ⟨((s.data.dropWhile isPyWs).reverse.dropWhile isPyWs).reverse⟩

/-! ## Sizes (fuel accounting for the parser) -/

mutual

def jsize : Json → Nat
  | .arr xs => 1 + jsizeList xs
  | .obj kvs => 1 + jsizeObj kvs
  | _ => 1

def jsizeList : JsonList → Nat
  | .nil => 0
  | .cons x xs => 1 + jsize x + jsizeList xs

def jsizeObj : JsonObj → Nat
  | .nil => 0
  | .cons _ v kvs => 1 + jsize v + jsizeObj kvs

end

/-- The characters of `pre` are all JSON whitespace. -/
def wsOnly (pre : List Char) : Prop := ∀ c ∈ pre, isJsonWs c = true

/-- `rest` does not begin with a decimal digit (so a number parse stops
exactly at the printed digits). -/
def numStop (rest : List Char) : Prop := ∀ c ∈ rest.head?, c.isDigit = false

/-! ## Python exceptions and attribute/membership primitives -/

/-- The Python exceptions that the embedded code can raise. -/
inductive PyErr where
  | exception (msg : String)
  | osError (msg : String)
  | attributeError
  | typeError
  | jsonDecodeError
deriving Repr, DecidableEq

/-- Python `v.get(key, dflt)`: defined on dicts only, `AttributeError`
on every other value (including `None` and other falsy non-dicts). -/
def pyGet (v : Json) (key : String) (dflt : Json) : Except PyErr Json :=
  match v with
  | .obj kvs => .ok ((kvs.lookup key).getD dflt)
  | _ => .error .attributeError

/-- Substring test on character lists (Python `in` on strings). -/
def strContains (needle : List Char) : List Char → Bool
  | [] => needle.isEmpty
  | c :: t => needle.isPrefixOf (c :: t) || strContains needle t

/-- Python `key in v`: key test on dicts, membership on lists, substring
test on strings, `TypeError` on non-containers. -/
def pyIn (key : String) (v : Json) : Except PyErr Bool :=
  match v with
  | .obj kvs => .ok (kvs.lookup key).isSome
  | .arr xs => .ok (xs.toList.any (fun x => jeq x (.str key)))
  | .str s => .ok (strContains key.data s.data)
  | _ => .error .typeError

/-- Python iteration (`for x in v`): elements of a list, keys of a dict,
characters of a string, `TypeError` otherwise. -/
def asIterList : Json → Except PyErr (List Json)
  | .arr xs => .ok xs.toList
  | .obj kvs => .ok (kvs.keys.map Json.str)
  | .str s => .ok (s.data.map (fun c => Json.str ⟨[c]⟩))
  | _ => .error .typeError

/-! ## LSP response structures (the fields the handlers construct).
Fields that the Python code fills straight from JSON data without any
coercion are typed `Json`. -/

structure Position where
  line : Json
  character : Json

structure Range where
  start : Position
  «end» : Position

inductive MarkupKind where
  | plaintext
  | markdown
deriving Repr, DecidableEq

structure MarkupContent where
  kind : MarkupKind
  value : Json

structure Hover where
  contents : MarkupContent
  range : Option Range

inductive CompletionItemKind where
  | Text | Method | Function | Field | Variable | Class | Keyword
deriving Repr, DecidableEq

structure CompletionItem where
  label : Json
  detail : Json
  documentation : Json
  kind : CompletionItemKind
  sort_text : Json
  insert_text : Json
  filter_text : Json

structure CompletionList where
  is_incomplete : Json
  items : List CompletionItem

inductive DiagnosticSeverity where
  | Error | Warning | Information | Hint
deriving Repr, DecidableEq

structure Diagnostic where
  range : Range
  severity : DiagnosticSeverity
  message : Json
  source : Json
  code : Json

/-- `lsp.RelatedFullDocumentDiagnosticReport`. -/
structure DiagnosticReport where
  items : List Diagnostic

/-! ## Conversion helpers (`dax_lsp_server.py` lines 295-338) -/

/-- `convert_completion_kind`: the `mapping.get(kind, Text)` lookup. -/
def convert_completion_kind (kind : Int) : CompletionItemKind :=
  if kind = 1 then .Text
  else if kind = 2 then .Method
  else if kind = 3 then .Function
  else if kind = 5 then .Field
  else if kind = 6 then .Variable
  else if kind = 7 then .Class
  else if kind = 14 then .Keyword
  else .Text

/-- The `kind` field arrives as arbitrary JSON; `mapping.get` returns its
default for every non-integer key (Python `True`, a key equal to `1`,
also maps to `Text`, like the default). -/
def convertKindJson : Json → CompletionItemKind
  | .num n => convert_completion_kind n
  | _ => .Text

/-- `convert_diagnostic_severity`: the `mapping.get(severity, Error)` lookup. -/
def convert_diagnostic_severity (severity : Int) : DiagnosticSeverity :=
  if severity = 1 then .Error
  else if severity = 2 then .Warning
  else if severity = 3 then .Information
  else if severity = 4 then .Hint
  else .Error

/-- The `severity` field as arbitrary JSON (every non-integer key falls
to the dict default `Error`; Python `True` maps to `mapping[1] = Error`
as well). -/
def convertSeverityJson : Json → DiagnosticSeverity
  | .num n => convert_diagnostic_severity n
  | _ => .Error

/-- `convert_range` (lines 318-338): zero-zero range for falsy input,
otherwise field-by-field defaults via `.get`.  A truthy non-dict input,
or a present non-dict `start`/`end` member, raises `AttributeError` at
the `.get` call, exactly as in Python. -/
def convert_range (range_data : Json) : Except PyErr Range := do
  if ¬ range_data.truthy then
    pure { start := { line := .num 0, character := .num 0 },
           «end» := { line := .num 0, character := .num 0 } }
  else
    let start ← pyGet range_data "start" (.obj .nil)
    let e ← pyGet range_data "end" (.obj .nil)
    let sline ← pyGet start "line" (.num 0)
    let schar ← pyGet start "character" (.num 0)
    let eline ← pyGet e "line" (.num 0)
    let echar ← pyGet e "character" (.num 0)
    pure { start := { line := sline, character := schar },
           «end» := { line := eline, character := echar } }

/-- The zero-zero range (`Position(0,0)` to `Position(0,0)`). -/
def zeroRange : Range :=
  { start := { line := .num 0, character := .num 0 },
    «end» := { line := .num 0, character := .num 0 } }

/-! ## Adapter handlers: the response-processing slice of each feature
handler.  Each handler's `try` body is a fallible computation over the
bridge's outcome; the `except` clause turns every exception into the
handler's neutral response. -/

/-- One completion item (lines 149-157). -/
def convertItem (item : Json) : Except PyErr CompletionItem := do
  let label ← pyGet item "label" (.str "")
  let detail ← pyGet item "detail" .null
  let documentation ← pyGet item "documentation" .null
  let kindv ← pyGet item "kind" (.num 1)
  let sortText ← pyGet item "sortText" .null
  let insertRaw ← pyGet item "insertText" .null
  let insertText ← if insertRaw.truthy then pure insertRaw else pyGet item "label" (.str "")
  let filterText ← pyGet item "filterText" .null
  pure { label, detail, documentation, kind := convertKindJson kindv,
         sort_text := sortText, insert_text := insertText, filter_text := filterText }

/-- The `completion` handler's processing of the bridge response
(lines 142-163). -/
def completionBody (response : Json) : Except PyErr CompletionList := do
  if ← pyIn "error" response then
    pure { is_incomplete := .bool false, items := [] }
  else
    let itemsJ ← pyGet response "items" (.arr .nil)
    let items ← asIterList itemsJ
    let completion_items ← items.mapM convertItem
    let isInc ← pyGet response "isIncomplete" (.bool false)
    pure { is_incomplete := isInc, items := completion_items }

/-- The `completion` handler (lines 125-167): the `try` body processes
the bridge's outcome, the `except` clause returns the empty
non-incomplete list. -/
def completion_handler (bridged : Except PyErr Json) : CompletionList :=
  match bridged >>= completionBody with
  | .ok l => l
  | .error _ => { is_incomplete := .bool false, items := [] }

/-- The `hover` handler's processing of the bridge response
(lines 229-238). -/
def hoverBody (response : Json) : Except PyErr (Option Hover) := do
  let hasError ← pyIn "error" response
  if hasError then
    pure none
  else
    let contents ← pyGet response "contents" .null
    if ¬ contents.truthy then
      pure none
    else
      let rangeJ ← pyGet response "range" .null
      if rangeJ.truthy then
        let r ← convert_range rangeJ
        pure (some { contents := { kind := .markdown, value := contents }, range := some r })
      else
        pure (some { contents := { kind := .markdown, value := contents }, range := none })

/-- The `hover` handler (lines 214-242): every exception degrades to
`None`. -/
def hover_handler (bridged : Except PyErr Json) : Option Hover :=
  match bridged >>= hoverBody with
  | .ok h => h
  | .error _ => none

/-- One diagnostic (lines 263-269). -/
def convertDiagnostic (diag : Json) : Except PyErr Diagnostic := do
  let rangeJ ← pyGet diag "range" .null
  let range ← convert_range rangeJ
  let sev ← pyGet diag "severity" (.num 1)
  let message ← pyGet diag "message" (.str "")
  let source ← pyGet diag "source" (.str "dax")
  let code ← pyGet diag "code" .null
  pure { range, severity := convertSeverityJson sev, message, source, code }

/-- The `diagnostic` handler's processing of the bridge response
(lines 257-271). -/
def diagnosticBody (response : Json) : Except PyErr DiagnosticReport := do
  if ← pyIn "error" response then
    pure { items := [] }
  else
    let diagsJ ← pyGet response "diagnostics" (.arr .nil)
    let diags ← asIterList diagsJ
    let items ← diags.mapM convertDiagnostic
    pure { items }

/-- The `diagnostic` handler (lines 245-275): every exception degrades to
the empty report. -/
def diagnostic_handler (bridged : Except PyErr Json) : DiagnosticReport :=
  match bridged >>= diagnosticBody with
  | .ok rep => rep
  | .error _ => { items := [] }

/-! ## The process bridge: `DaxStudioBridge.send_command` (lines 49-74)

`send_command` is embedded as a pure function of the bridge state (is
the child process started, is the lock currently held), the observable
behaviour of the child process's streams for this one exchange
(`ChildIO`), and the call arguments.  It yields the call's outcome, the
successor state, and the trace of stream/lock events; `none` means the
caller blocks forever on the lock. -/

/-- Observable behaviour of the child's streams for one exchange:
the outcome of `stdin.write`, of `stdin.flush`, and of
`stdout.readline` (where an empty line models EOF, as in Python). -/
structure ChildIO where
  writeRes : Except String Unit
  flushRes : Except String Unit
  readlineRes : Except String String

/-- `self.process` (started or not) and the `threading.Lock`. -/
structure BridgeState where
  process : Option Unit
  lockHeld : Bool

/-- Lock and stream events, in program order. -/
inductive Ev where
  | acquire
  | release
  | write (s : String)
  | flush
  | readLine
deriving Repr, DecidableEq

def Ev.isWrite : Ev → Bool
  | .write _ => true
  | _ => false

/-- The request envelope `{"method": method, "params": params}`. -/
def envelope (method : String) (params : Json) : Json :=
  .obj (.cons "method" (.str method) (.cons "params" params .nil))

/-- The body of `send_command` under the lock (lines 61-71): write the
serialized envelope plus newline, flush, read one line, fail on an empty
line, parse the stripped line. -/
def sendBody (child : ChildIO) (method : String) (params : Json) :
    Except PyErr Json × List Ev :=
  let command_json := dumps (envelope method params) ++ "\n"
  match child.writeRes with
  | .error e => (.error (.osError e), [.write command_json])
  | .ok _ =>
    match child.flushRes with
    | .error e => (.error (.osError e), [.write command_json, .flush])
    | .ok _ =>
      match child.readlineRes with
      | .error e => (.error (.osError e), [.write command_json, .flush, .readLine])
      | .ok response_line =>
        if response_line = "" then
          (.error (.exception "No response from DaxStudio service"),
           [.write command_json, .flush, .readLine])
        else
          match loads (pyStrip response_line) with
          | some j => (.ok j, [.write command_json, .flush, .readLine])
          | none => (.error .jsonDecodeError, [.write command_json, .flush, .readLine])

/-- Outcome of one `send_command` call: result, successor bridge state,
event trace. -/
structure CallResult where
  result : Except PyErr Json
  state : BridgeState
  trace : List Ev

/-- `send_command` (lines 49-74).  Raises "not started" before touching
any stream when no process exists; otherwise acquires the lock (blocking
forever, `none`, if it is already held), runs the body, releases the
lock on every path (`with self._lock`), and re-raises any exception
unchanged (the `except` clause logs and re-raises). -/
def send_command (st : BridgeState) (child : ChildIO) (method : String) (params : Json) :
    Option CallResult :=
  match st.process with
  | none =>
    some { result := .error (.exception "DaxStudio service not started"),
           state := st, trace := [] }
  | some _ =>
    if st.lockHeld then none
    else
      let (r, evs) := sendBody child method params
      some { result := r, state := { st with lockHeld := false },
             trace := .acquire :: evs ++ [.release] }

/-! # Theorems

## Basic character and list facts -/

theorem charOfNat_toNat {c : Char} (h : c.toNat < 55296) : Char.ofNat c.toNat = c := by
  have hv : Nat.isValidChar c.toNat := Or.inl h
  simp [Char.ofNat, hv, Char.ofNatAux]
  apply Char.ext
  apply UInt32.ext
  simp [Char.toNat, UInt32.toNat]

theorem toNat_charOfNat {n : Nat} (h : n < 55296) : (Char.ofNat n).toNat = n := by
  have hv : Nat.isValidChar n := Or.inl h
  simp [Char.ofNat, hv, Char.ofNatAux, Char.toNat, UInt32.toNat]

theorem isDigit_eq (c : Char) : c.isDigit = (decide (48 ≤ c.toNat) && decide (c.toNat ≤ 57)) := by
  simp [Char.isDigit, Char.toNat, Char.le_def, UInt32.le_def]
  rfl

theorem stringMk_data (s : String) : (⟨s.data⟩ : String) = s := rfl

theorem dropWhile_cons_false {α} (p : α → Bool) (c : α) (t : List α) (h : p c = false) :
    (c :: t).dropWhile p = c :: t := by
  simp [List.dropWhile, h]

theorem dropWhile_append_all {α} (p : α → Bool) (pre l : List α)
    (h : ∀ c ∈ pre, p c = true) : (pre ++ l).dropWhile p = l.dropWhile p := by
  induction pre with
  | nil => rfl
  | cons c t ih =>
    have hc : p c = true := h c (by simp)
    simp [List.dropWhile, hc]
    exact ih fun x hx => h x (by simp [hx])

theorem takeWhile_all_append {α} (p : α → Bool) (l r : List α)
    (hl : ∀ c ∈ l, p c = true) (hr : ∀ c ∈ r.head?, p c = false) :
    (l ++ r).takeWhile p = l := by
  induction l with
  | nil =>
    cases r with
    | nil => rfl
    | cons c t =>
      have := hr c (by simp)
      simp [List.takeWhile, this]
  | cons c t ih =>
    have hc : p c = true := hl c (by simp)
    simp [List.takeWhile, hc]
    exact ih fun x hx => hl x (by simp [hx])

theorem dropWhile_all_append {α} (p : α → Bool) (l r : List α)
    (hl : ∀ c ∈ l, p c = true) (hr : ∀ c ∈ r.head?, p c = false) :
    (l ++ r).dropWhile p = r := by
  induction l with
  | nil =>
    cases r with
    | nil => rfl
    | cons c t =>
      have := hr c (by simp)
      simp [List.dropWhile, this]
  | cons c t ih =>
    have hc : p c = true := hl c (by simp)
    simp [List.dropWhile, hc]
    exact ih fun x hx => hl x (by simp [hx])

theorem skipWs_pre (pre l : List Char) (h : wsOnly pre) : skipWs (pre ++ l) = skipWs l :=
  dropWhile_append_all isJsonWs pre l h

theorem skipWs_cons {c : Char} (t : List Char) (h : isJsonWs c = false) :
    skipWs (c :: t) = c :: t :=
  dropWhile_cons_false isJsonWs c t h

theorem isDigit_toNat {c : Char} (h : c.isDigit = true) : 48 ≤ c.toNat ∧ c.toNat ≤ 57 := by
  rw [isDigit_eq] at h
  simpa using h

theorem digitChar_isDigit {d : Nat} (h : d < 10) : (Char.ofNat (48 + d)).isDigit = true := by
  rw [isDigit_eq, toNat_charOfNat (by omega)]
  simp
  omega

theorem digit_ne_char {c x : Char} (h : c.isDigit = true) (hx : x.isDigit = false) : c ≠ x := by
  intro he
  rw [he, hx] at h
  exact Bool.false_ne_true h

theorem digit_not_ws {c : Char} (h : c.isDigit = true) : isJsonWs c = false := by
  have h1 : c ≠ ' ' := digit_ne_char h (by decide)
  have h2 : c ≠ '\t' := digit_ne_char h (by decide)
  have h3 : c ≠ '\n' := digit_ne_char h (by decide)
  have h4 : c ≠ '\r' := digit_ne_char h (by decide)
  simp [isJsonWs, h1, h2, h3, h4]

theorem hexVal_hexDigit : ∀ d, d < 16 → hexVal (hexDigit d) = some d := by decide

/-! ## String literal round-trip -/

theorem hex4_value (m : Nat) (hm : m < 65536) :
    ((m / 4096 % 16 * 16 + m / 256 % 16) * 16 + m / 16 % 16) * 16 + m % 16 = m := by
  omega

theorem parseStr_escList : ∀ (l r : List Char), parseStr (escList l ++ '"' :: r) = some (l, r) := by
  intro l
  induction l with
  | nil => intro r; rw [escList, List.nil_append, parseStr.eq_def]; simp
  | cons c cs ih =>
    intro r
    show parseStr ((escChar c ++ escList cs) ++ '"' :: r) = _
    rw [List.append_assoc]
    by_cases h1 : c = '"'
    · subst h1
      rw [show escChar '"' = ['\\', '"'] from rfl]
      rw [List.cons_append, List.cons_append, List.nil_append, parseStr.eq_def]
      simp +decide [escDecode, ih]
    · by_cases h2 : c = '\\'
      · subst h2
        rw [show escChar '\\' = ['\\', '\\'] from rfl]
        rw [List.cons_append, List.cons_append, List.nil_append, parseStr.eq_def]
        simp +decide [escDecode, ih]
      · by_cases h3 : c = '\n'
        · subst h3
          rw [show escChar '\n' = ['\\', 'n'] from rfl]
          rw [List.cons_append, List.cons_append, List.nil_append, parseStr.eq_def]
          simp +decide [escDecode, ih]
        · by_cases h4 : c = '\r'
          · subst h4
            rw [show escChar '\r' = ['\\', 'r'] from rfl]
            rw [List.cons_append, List.cons_append, List.nil_append, parseStr.eq_def]
            simp +decide [escDecode, ih]
          · by_cases h5 : c = '\t'
            · subst h5
              rw [show escChar '\t' = ['\\', 't'] from rfl]
              rw [List.cons_append, List.cons_append, List.nil_append, parseStr.eq_def]
              simp +decide [escDecode, ih]
            · by_cases h6 : c = '\x08'
              · subst h6
                rw [show escChar '\x08' = ['\\', 'b'] from rfl]
                rw [List.cons_append, List.cons_append, List.nil_append, parseStr.eq_def]
                simp +decide [escDecode, ih]
              · by_cases h7 : c = '\x0c'
                · subst h7
                  rw [show escChar '\x0c' = ['\\', 'f'] from rfl]
                  rw [List.cons_append, List.cons_append, List.nil_append, parseStr.eq_def]
                  simp +decide [escDecode, ih]
                · by_cases h8 : c.toNat < 32
                  · have hesc : escChar c = '\\' :: 'u' :: hex4 c.toNat := by
                      simp [escChar, h1, h2, h3, h4, h5, h6, h7, h8]
                    rw [hesc]
                    show parseStr ('\\' :: 'u' :: hex4 c.toNat ++ (escList cs ++ '"' :: r)) = _
                    rw [parseStr.eq_def]
                    simp only [hex4, List.cons_append, List.nil_append]
                    rw [hexVal_hexDigit _ (Nat.mod_lt _ (by norm_num)),
                        hexVal_hexDigit _ (Nat.mod_lt _ (by norm_num)),
                        hexVal_hexDigit _ (Nat.mod_lt _ (by norm_num)),
                        hexVal_hexDigit _ (Nat.mod_lt _ (by norm_num))]
                    simp +decide [ih, hex4_value c.toNat (by omega),
                      charOfNat_toNat (show c.toNat < 55296 by omega)]
                  · have hesc : escChar c = [c] := by
                      simp [escChar, h1, h2, h3, h4, h5, h6, h7, h8]
                    rw [hesc]
                    show parseStr (c :: (escList cs ++ '"' :: r)) = _
                    rw [parseStr.eq_def]
                    simp [h1, h2, ih]

/-! ## Number round-trip -/

theorem natDigits_all_digit (m : Nat) : ∀ c ∈ natDigits m, c.isDigit = true := by
  intro c hc
  unfold natDigits at hc
  by_cases h : m = 0
  · simp [h] at hc; subst hc; decide
  · simp [h] at hc
    obtain ⟨d, hd, rfl⟩ := hc
    exact digitChar_isDigit (Nat.digits_lt_base (by norm_num) hd)

theorem natDigits_ne_nil (m : Nat) : natDigits m ≠ [] := by
  unfold natDigits
  by_cases h : m = 0
  · simp [h]
  · simp [h]
    exact Nat.digits_ne_nil_iff_ne_zero.mpr h

theorem foldl_digits_aux : ∀ ds : List Nat, (∀ d ∈ ds, d < 10) →
    ((ds.map (fun d => Char.ofNat (48 + d))).reverse).foldl (fun a c => a * 10 + (c.toNat - 48)) 0
      = Nat.ofDigits 10 ds := by
  intro ds
  induction ds with
  | nil => intro _; simp [Nat.ofDigits]
  | cons d t ih =>
    intro h
    simp only [List.map_cons, List.reverse_cons, List.foldl_append, List.foldl_cons, List.foldl_nil]
    rw [ih (fun x hx => h x (by simp [hx]))]
    rw [toNat_charOfNat (by have := h d (by simp); omega)]
    rw [Nat.ofDigits_cons]
    have h48 : 48 + d - 48 = d := by omega
    rw [h48]; ring

theorem foldl_natDigits (m : Nat) :
    (natDigits m).foldl (fun a c => a * 10 + (c.toNat - 48)) 0 = m := by
  unfold natDigits
  by_cases h : m = 0
  · simp [h]
  · simp only [h, if_false]
    rw [foldl_digits_aux _ (fun d hd => Nat.digits_lt_base (by norm_num) hd)]
    exact Nat.ofDigits_digits 10 m

theorem parseNat_natDigits (m : Nat) (rest : List Char) (h : numStop rest) :
    parseNat (natDigits m ++ rest) = some (m, rest) := by
  unfold parseNat
  rw [takeWhile_all_append _ _ _ (natDigits_all_digit m) h,
      dropWhile_all_append _ _ _ (natDigits_all_digit m) h]
  simp [natDigits_ne_nil m, foldl_natDigits m]

theorem parseValue_printNum (n : Int) (fuel : Nat) (rest : List Char) (h : numStop rest) :
    parseValue (fuel + 1) (printNum n ++ rest) = some (.num n, rest) := by
  by_cases hn : n < 0
  · rw [printNum, if_pos hn, List.cons_append, parseValue.eq_def]
    simp only [Nat.add_eq, Nat.add_zero]
    rw [show skipWs ('-' :: (natDigits n.natAbs ++ rest)) = '-' :: (natDigits n.natAbs ++ rest)
        from skipWs_cons _ (by decide)]
    simp only []
    rw [parseNat_natDigits n.natAbs rest h]
    simp +decide []
    rw [abs_of_neg hn, neg_neg]
  · obtain ⟨c, t, heq⟩ : ∃ c t, natDigits n.natAbs = c :: t := by
      cases hh : natDigits n.natAbs with
      | nil => exact absurd hh (natDigits_ne_nil _)
      | cons c t => exact ⟨c, t, rfl⟩
    have hdig : c.isDigit = true := natDigits_all_digit n.natAbs c (by rw [heq]; simp)
    rw [printNum, if_neg hn, heq, List.cons_append, parseValue.eq_def]
    simp only [Nat.add_eq, Nat.add_zero]
    rw [show skipWs (c :: (t ++ rest)) = c :: (t ++ rest)
        from skipWs_cons _ (digit_not_ws hdig)]
    simp only []
    have c1 : (c = 'n') = False := by simp [@digit_ne_char c 'n' hdig (by decide)]
    have c2 : (c = 't') = False := by simp [@digit_ne_char c 't' hdig (by decide)]
    have c3 : (c = 'f') = False := by simp [@digit_ne_char c 'f' hdig (by decide)]
    have c4 : (c = '"') = False := by simp [@digit_ne_char c '"' hdig (by decide)]
    have c5 : (c = '-') = False := by simp [@digit_ne_char c '-' hdig (by decide)]
    simp only [c1, c2, c3, c4, c5, if_false, hdig, if_true]
    rw [← List.cons_append, ← heq, parseNat_natDigits n.natAbs rest h]
    have habs : ((n.natAbs : Int)) = n := by omega
    simp [habs]

/-! ## Shape facts about printed values -/

theorem digit_not_pyWs {c : Char} (h : c.isDigit = true) : isPyWs c = false := by
  have h1 : c ≠ ' ' := digit_ne_char h (by decide)
  have h2 : c ≠ '\t' := digit_ne_char h (by decide)
  have h3 : c ≠ '\n' := digit_ne_char h (by decide)
  have h4 : c ≠ '\r' := digit_ne_char h (by decide)
  have h5 : c ≠ '\x0b' := digit_ne_char h (by decide)
  have h6 : c ≠ '\x0c' := digit_ne_char h (by decide)
  simp [isPyWs, h1, h2, h3, h4, h5, h6]

theorem wsOnly_nil : wsOnly [] := by
  intro c hc
  simp at hc

theorem wsOnly_space : wsOnly [' '] := by
  intro c hc
  simp at hc
  subst hc
  decide

theorem numStop_nil : numStop [] := by
  intro c hc
  simp at hc

theorem numStop_cons {c : Char} (t : List Char) (h : c.isDigit = false) : numStop (c :: t) := by
  intro x hx
  simp at hx
  subst hx
  exact h

theorem numStop_printItems (xs : JsonList) (rest : List Char) :
    numStop (printItems xs ++ ']' :: rest) := by
  cases xs with
  | nil => exact numStop_cons _ (by decide)
  | cons x t =>
    rw [printItems]
    exact numStop_cons _ (by decide)

theorem numStop_printMembers (kvs : JsonObj) (rest : List Char) :
    numStop (printMembers kvs ++ '}' :: rest) := by
  cases kvs with
  | nil => exact numStop_cons _ (by decide)
  | cons k v t =>
    rw [printMembers]
    exact numStop_cons _ (by decide)

theorem jsize_pos : ∀ v : Json, 1 ≤ jsize v
  | .null => le_refl 1
  | .bool _ => le_refl 1
  | .num _ => le_refl 1
  | .str _ => le_refl 1
  | .arr xs => by rw [jsize]; omega
  | .obj kvs => by rw [jsize]; omega

theorem printV_head (v : Json) : ∃ c t, printV v = c :: t ∧ isJsonWs c = false ∧
    isPyWs c = false ∧ (c = ']') = False ∧ (c = '}') = False := by
  cases v with
  | null => exact ⟨'n', _, rfl, by decide, by decide, by decide, by decide⟩
  | bool b =>
    cases b with
    | true => exact ⟨'t', _, rfl, by decide, by decide, by decide, by decide⟩
    | false => exact ⟨'f', _, rfl, by decide, by decide, by decide, by decide⟩
  | num n =>
    by_cases hn : n < 0
    · exact ⟨'-', _, by rw [printV, printNum, if_pos hn], by decide, by decide, by decide, by decide⟩
    · obtain ⟨c, t, heq⟩ : ∃ c t, natDigits n.natAbs = c :: t := by
        cases hh : natDigits n.natAbs with
        | nil => exact absurd hh (natDigits_ne_nil _)
        | cons c t => exact ⟨c, t, rfl⟩
      have hdig : c.isDigit = true := natDigits_all_digit n.natAbs c (by rw [heq]; simp)
      refine ⟨c, t, ?_, digit_not_ws hdig, digit_not_pyWs hdig, ?_, ?_⟩
      · rw [printV, printNum, if_neg hn, heq]
      · simp [@digit_ne_char c ']' hdig (by decide)]
      · simp [@digit_ne_char c '}' hdig (by decide)]
  | str s =>
    exact ⟨'"', _, by rw [printV, printStr, List.cons_append], by decide, by decide, by decide,
      by decide⟩
  | arr xs =>
    cases xs with
    | nil => exact ⟨'[', _, rfl, by decide, by decide, by decide, by decide⟩
    | cons x t =>
      exact ⟨'[', _, by rw [printV, List.cons_append], by decide, by decide, by decide, by decide⟩
  | obj kvs =>
    cases kvs with
    | nil => exact ⟨'{', _, rfl, by decide, by decide, by decide, by decide⟩
    | cons k v t =>
      exact ⟨'{', _, by rw [printV, List.cons_append], by decide, by decide, by decide, by decide⟩

theorem parseValue_wsPre (fuel : Nat) (pre cs : List Char) (h : wsOnly pre) :
    parseValue fuel (pre ++ cs) = parseValue fuel cs := by
  cases fuel with
  | zero => rfl
  | succ f =>
    rw [parseValue.eq_def, parseValue.eq_def]
    simp only [Nat.add_eq, Nat.add_zero]
    rw [show skipWs (pre ++ cs) = skipWs cs from skipWs_pre pre cs h]

theorem skipWs_rbrack (l : List Char) : skipWs (']' :: l) = ']' :: l := skipWs_cons _ (by decide)

theorem skipWs_rbrace (l : List Char) : skipWs ('}' :: l) = '}' :: l := skipWs_cons _ (by decide)

theorem skipWs_lbrack (l : List Char) : skipWs ('[' :: l) = '[' :: l := skipWs_cons _ (by decide)

theorem skipWs_lbrace (l : List Char) : skipWs ('{' :: l) = '{' :: l := skipWs_cons _ (by decide)

theorem skipWs_comma (l : List Char) : skipWs (',' :: l) = ',' :: l := skipWs_cons _ (by decide)

theorem skipWs_colon (l : List Char) : skipWs (':' :: l) = ':' :: l := skipWs_cons _ (by decide)

theorem skipWs_quote (l : List Char) : skipWs ('"' :: l) = '"' :: l := skipWs_cons _ (by decide)

mutual

theorem parse_printV : ∀ (v : Json) (fuel : Nat) (rest : List Char),
    jsize v ≤ fuel → numStop rest →
    parseValue fuel (printV v ++ rest) = some (v, rest)
  | .null, fuel, rest, hf, _ => by
    obtain ⟨f, rfl⟩ : ∃ f, fuel = f + 1 :=
      ⟨fuel - 1, by have h1 := jsize_pos Json.null; omega⟩
    rw [show printV .null = ['n', 'u', 'l', 'l'] from rfl]
    simp only [List.cons_append, List.nil_append]
    rw [parseValue.eq_def]
    simp only [Nat.add_eq, Nat.add_zero]
    rw [show skipWs ('n' :: 'u' :: 'l' :: 'l' :: rest) = 'n' :: 'u' :: 'l' :: 'l' :: rest
        from skipWs_cons _ (by decide)]
    simp +decide []
  | .bool true, fuel, rest, hf, _ => by
    obtain ⟨f, rfl⟩ : ∃ f, fuel = f + 1 :=
      ⟨fuel - 1, by have h1 := jsize_pos (Json.bool true); omega⟩
    rw [show printV (.bool true) = ['t', 'r', 'u', 'e'] from rfl]
    simp only [List.cons_append, List.nil_append]
    rw [parseValue.eq_def]
    simp only [Nat.add_eq, Nat.add_zero]
    rw [show skipWs ('t' :: 'r' :: 'u' :: 'e' :: rest) = 't' :: 'r' :: 'u' :: 'e' :: rest
        from skipWs_cons _ (by decide)]
    simp +decide []
  | .bool false, fuel, rest, hf, _ => by
    obtain ⟨f, rfl⟩ : ∃ f, fuel = f + 1 :=
      ⟨fuel - 1, by have h1 := jsize_pos (Json.bool false); omega⟩
    rw [show printV (.bool false) = ['f', 'a', 'l', 's', 'e'] from rfl]
    simp only [List.cons_append, List.nil_append]
    rw [parseValue.eq_def]
    simp only [Nat.add_eq, Nat.add_zero]
    rw [show skipWs ('f' :: 'a' :: 'l' :: 's' :: 'e' :: rest) = 'f' :: 'a' :: 'l' :: 's' :: 'e' :: rest
        from skipWs_cons _ (by decide)]
    simp +decide []
  | .num n, fuel, rest, hf, hr => by
    obtain ⟨f, rfl⟩ : ∃ f, fuel = f + 1 :=
      ⟨fuel - 1, by have h1 := jsize_pos (Json.num n); omega⟩
    exact parseValue_printNum n f rest hr
  | .str s, fuel, rest, hf, _ => by
    obtain ⟨f, rfl⟩ : ∃ f, fuel = f + 1 :=
      ⟨fuel - 1, by have h1 := jsize_pos (Json.str s); omega⟩
    rw [show printV (.str s) = printStr s from rfl, printStr]
    simp only [List.cons_append, List.append_assoc, List.singleton_append, List.nil_append]
    rw [parseValue.eq_def]
    simp only [Nat.add_eq, Nat.add_zero, skipWs_quote]
    simp +decide [parseStr_escList, stringMk_data]
  | .arr .nil, fuel, rest, hf, _ => by
    obtain ⟨f, rfl⟩ : ∃ f, fuel = f + 1 :=
      ⟨fuel - 1, by have h1 := jsize_pos (Json.arr .nil); omega⟩
    rw [show printV (.arr .nil) = ['[', ']'] from rfl]
    simp only [List.cons_append, List.nil_append]
    rw [parseValue.eq_def]
    simp only [Nat.add_eq, Nat.add_zero, skipWs_lbrack, skipWs_rbrack]
    simp +decide []
  | .arr (.cons x xs), fuel, rest, hf, _ => by
    obtain ⟨f, rfl⟩ : ∃ f, fuel = f + 1 :=
      ⟨fuel - 1, by have h1 := jsize_pos (Json.arr (.cons x xs)); omega⟩
    have hsz : jsizeList (.cons x xs) ≤ f := by
      have h2 : jsize (Json.arr (.cons x xs)) = 1 + jsizeList (.cons x xs) := rfl
      omega
    have hi := parse_printItems (.cons x xs) f [] rest wsOnly_nil hsz
    simp only [List.nil_append] at hi
    obtain ⟨c, t, hct, hws, _, hne1, _⟩ := printV_head x
    rw [show printV (.arr (.cons x xs)) = ('[' :: (printV x ++ printItems xs)) ++ [']'] from rfl]
    simp only [List.cons_append, List.append_assoc, List.singleton_append, List.nil_append]
    rw [parseValue.eq_def]
    simp only [Nat.add_eq, Nat.add_zero, skipWs_lbrack]
    rw [hct]
    simp only [List.cons_append]
    rw [show skipWs (c :: (t ++ (printItems xs ++ ']' :: rest)))
        = c :: (t ++ (printItems xs ++ ']' :: rest)) from skipWs_cons _ hws]
    simp +decide [hne1]
    rw [← List.cons_append, ← hct, hi]
  | .obj .nil, fuel, rest, hf, _ => by
    obtain ⟨f, rfl⟩ : ∃ f, fuel = f + 1 :=
      ⟨fuel - 1, by have h1 := jsize_pos (Json.obj .nil); omega⟩
    rw [show printV (.obj .nil) = ['{', '}'] from rfl]
    simp only [List.cons_append, List.nil_append]
    rw [parseValue.eq_def]
    simp only [Nat.add_eq, Nat.add_zero, skipWs_lbrace, skipWs_rbrace]
    simp +decide []
  | .obj (.cons k v kvs), fuel, rest, hf, _ => by
    obtain ⟨f, rfl⟩ : ∃ f, fuel = f + 1 :=
      ⟨fuel - 1, by have h1 := jsize_pos (Json.obj (.cons k v kvs)); omega⟩
    have hsz : jsizeObj (.cons k v kvs) ≤ f := by
      have h2 : jsize (Json.obj (.cons k v kvs)) = 1 + jsizeObj (.cons k v kvs) := rfl
      omega
    have hi := parse_printMembers (.cons k v kvs) f [] rest wsOnly_nil hsz
    simp only [List.nil_append] at hi
    rw [show printV (.obj (.cons k v kvs))
        = ('{' :: (printStr k ++ ':' :: ' ' :: printV v ++ printMembers kvs)) ++ ['}'] from rfl]
    simp only [printStr, List.cons_append, List.append_assoc, List.singleton_append,
      List.nil_append]
    rw [parseValue.eq_def]
    simp only [Nat.add_eq, Nat.add_zero, skipWs_lbrace, skipWs_quote]
    simp +decide []
    rw [hi]

theorem parse_printItems : ∀ (xs : JsonList) (fuel : Nat) (pre rest : List Char),
    wsOnly pre → jsizeList xs ≤ fuel →
    (match xs with
     | .nil => True
     | .cons x tail =>
       parseItems fuel (pre ++ (printV x ++ (printItems tail ++ ']' :: rest))) =
         some (.cons x tail, rest))
  | .nil, _, _, _, _, _ => trivial
  | .cons x tail, fuel, pre, rest, hpre, hsz => by
    simp only [jsizeList] at hsz
    obtain ⟨g, rfl⟩ : ∃ g, fuel = g + 1 := ⟨fuel - 1, by omega⟩
    simp only []
    rw [parseItems.eq_def]
    simp only [Nat.add_eq, Nat.add_zero]
    rw [parseValue_wsPre g pre _ hpre]
    rw [parse_printV x g _ (by omega) (numStop_printItems tail rest)]
    simp only []
    cases tail with
    | nil =>
      simp only [printItems, List.nil_append, skipWs_rbrack]
    | cons y tail2 =>
      simp only [printItems, List.cons_append, List.append_assoc, List.nil_append, skipWs_comma]
      have hij := parse_printItems (.cons y tail2) g [' '] rest wsOnly_space
        (by simp only [jsizeList] at hsz ⊢; omega)
      simp only [List.cons_append, List.nil_append] at hij
      rw [hij]

theorem parse_printMembers : ∀ (kvs : JsonObj) (fuel : Nat) (pre rest : List Char),
    wsOnly pre → jsizeObj kvs ≤ fuel →
    (match kvs with
     | .nil => True
     | .cons k v tail =>
       parseMembers fuel (pre ++ '"' :: (escList k.data ++ '"' :: ':' :: ' ' ::
         (printV v ++ (printMembers tail ++ '}' :: rest)))) =
         some (.cons k v tail, rest))
  | .nil, _, _, _, _, _ => trivial
  | .cons k v tail, fuel, pre, rest, hpre, hsz => by
    simp only [jsizeObj] at hsz
    obtain ⟨g, rfl⟩ : ∃ g, fuel = g + 1 := ⟨fuel - 1, by omega⟩
    simp only []
    rw [parseMembers.eq_def]
    simp only [Nat.add_eq, Nat.add_zero]
    rw [show skipWs (pre ++ '"' :: (escList k.data ++ '"' :: ':' :: ' ' ::
          (printV v ++ (printMembers tail ++ '}' :: rest))))
        = '"' :: (escList k.data ++ '"' :: ':' :: ' ' ::
          (printV v ++ (printMembers tail ++ '}' :: rest)))
        from by rw [skipWs_pre _ _ hpre, skipWs_quote]]
    simp only []
    rw [parseStr_escList k.data _]
    simp only [skipWs_colon]
    rw [show parseValue g (' ' :: (printV v ++ (printMembers tail ++ '}' :: rest)))
        = parseValue g (printV v ++ (printMembers tail ++ '}' :: rest))
        from by
          have := parseValue_wsPre g [' '] (printV v ++ (printMembers tail ++ '}' :: rest))
            wsOnly_space
          simpa using this]
    rw [parse_printV v g _ (by omega) (numStop_printMembers tail rest)]
    simp only [stringMk_data]
    cases tail with
    | nil =>
      simp only [printMembers, List.nil_append, skipWs_rbrace]
    | cons k2 v2 tail2 =>
      simp only [printMembers, printStr, List.cons_append, List.append_assoc, List.nil_append,
        skipWs_comma]
      have hij := parse_printMembers (.cons k2 v2 tail2) g [' '] rest wsOnly_space
        (by simp only [jsizeObj] at hsz ⊢; omega)
      simp only [List.cons_append, List.nil_append] at hij
      rw [hij]

end

mutual

theorem jsize_le_printV : ∀ v : Json, jsize v ≤ (printV v).length
  | .null => by simp [jsize, printV]
  | .bool true => by simp [jsize, printV]
  | .bool false => by simp [jsize, printV]
  | .num n => by
    have h1 : printNum n ≠ [] := by
      unfold printNum
      by_cases hn : n < 0
      · simp [hn]
      · simp [hn, natDigits_ne_nil]
    have h2 : 0 < (printNum n).length := List.length_pos.mpr h1
    simp only [jsize, printV]
    omega
  | .str s => by
    simp [jsize, printV, printStr]
  | .arr .nil => by simp [jsize, jsizeList, printV]
  | .arr (.cons x xs) => by
    have h1 := jsize_le_printV x
    have h2 := jsizeList_le_printItems xs
    simp only [jsize, jsizeList, printV, List.length_append, List.length_cons]
    omega
  | .obj .nil => by simp [jsize, jsizeObj, printV]
  | .obj (.cons k v kvs) => by
    have h1 := jsize_le_printV v
    have h2 := jsizeObj_le_printMembers kvs
    simp only [jsize, jsizeObj, printV, List.length_append, List.length_cons]
    omega

theorem jsizeList_le_printItems : ∀ xs : JsonList, jsizeList xs ≤ (printItems xs).length
  | .nil => by simp [jsizeList, printItems]
  | .cons y ys => by
    have h1 := jsize_le_printV y
    have h2 := jsizeList_le_printItems ys
    simp only [jsizeList, printItems, List.length_append, List.length_cons]
    omega

theorem jsizeObj_le_printMembers : ∀ kvs : JsonObj, jsizeObj kvs ≤ (printMembers kvs).length
  | .nil => by simp [jsizeObj, printMembers]
  | .cons k v t => by
    have h1 := jsize_le_printV v
    have h2 := jsizeObj_le_printMembers t
    simp only [jsizeObj, printMembers, List.length_append, List.length_cons]
    omega

end

/-- `json.loads` inverts `json.dumps` on every JSON value. -/
theorem loads_dumps (v : Json) : loads (dumps v) = some v := by
  unfold loads dumps
  have hsize : jsize v ≤ (printV v).length + 1 := by
    have := jsize_le_printV v
    omega
  have h := parse_printV v ((printV v).length + 1) [] hsize numStop_nil
  rw [List.append_nil] at h
  simp [h, skipWs]

theorem printV_last (v : Json) : ∃ c t, (printV v).reverse = c :: t ∧ isPyWs c = false := by
  cases v with
  | null => exact ⟨'l', _, rfl, rfl⟩
  | bool b =>
    cases b with
    | true => exact ⟨'e', _, rfl, rfl⟩
    | false => exact ⟨'e', _, rfl, rfl⟩
  | num n =>
    obtain ⟨c, t, hct⟩ : ∃ c t, (natDigits n.natAbs).reverse = c :: t := by
      cases hh : (natDigits n.natAbs).reverse with
      | nil =>
        exfalso
        have := natDigits_ne_nil n.natAbs
        rw [← List.reverse_reverse (natDigits n.natAbs), hh] at this
        simp at this
      | cons c t => exact ⟨c, t, rfl⟩
    have hmem : c ∈ natDigits n.natAbs := by
      rw [← List.mem_reverse, hct]
      simp
    have hdig := natDigits_all_digit n.natAbs c hmem
    by_cases hn : n < 0
    · refine ⟨c, t ++ ['-'], ?_, digit_not_pyWs hdig⟩
      rw [printV, printNum, if_pos hn, List.reverse_cons, hct, List.cons_append]
    · refine ⟨c, t, ?_, digit_not_pyWs hdig⟩
      rw [printV, printNum, if_neg hn, hct]
  | str s =>
    refine ⟨'"', (escList s.data).reverse ++ ['"'], ?_, rfl⟩
    rw [printV, printStr, List.reverse_append]
    simp
  | arr xs =>
    cases xs with
    | nil => exact ⟨']', _, rfl, rfl⟩
    | cons x t =>
      refine ⟨']', (printV x ++ printItems t).reverse ++ ['['], ?_, rfl⟩
      rw [printV, List.reverse_append]
      simp
  | obj kvs =>
    cases kvs with
    | nil => exact ⟨'}', _, rfl, rfl⟩
    | cons k v t =>
      refine ⟨'}', (printStr k ++ ':' :: ' ' :: printV v ++ printMembers t).reverse ++ ['{'],
        ?_, rfl⟩
      rw [printV, List.reverse_append]
      simp

/-- Stripping the trailing newline from a serialized value gives back
exactly the serialized value (it has no leading or trailing whitespace). -/
theorem pyStrip_dumps_newline (v : Json) : pyStrip (dumps v ++ "\n") = dumps v := by
  have hdata : (dumps v ++ "\n").data = printV v ++ ['\n'] := by
    rw [String.data_append]
    rfl
  unfold pyStrip
  rw [hdata]
  obtain ⟨c, t, hct, _, hpws, _, _⟩ := printV_head v
  obtain ⟨c2, t2, hct2, hpws2⟩ := printV_last v
  rw [hct, List.cons_append, dropWhile_cons_false _ _ _ hpws, ← List.cons_append, ← hct]
  rw [show (printV v ++ ['\n']).reverse = '\n' :: (printV v).reverse from by
    rw [List.reverse_append]; rfl]
  rw [show List.dropWhile isPyWs ('\n' :: (printV v).reverse)
      = List.dropWhile isPyWs (printV v).reverse from by
    simp [List.dropWhile, show isPyWs '\n' = true from rfl]]
  rw [hct2, dropWhile_cons_false _ _ _ hpws2, ← hct2, List.reverse_reverse]
  rfl

/-- The full reply path of the bridge: reading back the line
`dumps o + "\n"`, stripping it and parsing it yields `o` again. -/
theorem loads_strip_dumps (o : Json) : loads (pyStrip (dumps o ++ "\n")) = some o := by
  rw [pyStrip_dumps_newline, loads_dumps]

theorem hexDigit_ne_newline : ∀ d, d < 16 → hexDigit d ≠ '\n' := by decide

theorem newline_not_escChar (c : Char) : '\n' ∉ escChar c := by
  unfold escChar
  by_cases h1 : c = '"'
  · simp [h1]
  · by_cases h2 : c = '\\'
    · simp [h1, h2]
    · by_cases h3 : c = '\n'
      · simp [h1, h2, h3]
      · by_cases h4 : c = '\r'
        · simp [h1, h2, h3, h4]
        · by_cases h5 : c = '\t'
          · simp [h1, h2, h3, h4, h5]
          · by_cases h6 : c = '\x08'
            · simp [h1, h2, h3, h4, h5, h6]
            · by_cases h7 : c = '\x0c'
              · simp [h1, h2, h3, h4, h5, h6, h7]
              · by_cases h8 : c.toNat < 32
                · simp only [h1, h2, h3, h4, h5, h6, h7, h8, if_false, if_true, hex4]
                  intro hmem
                  simp at hmem
                  rcases hmem with h | h | h | h
                  · exact hexDigit_ne_newline _ (Nat.mod_lt _ (by norm_num)) h.symm
                  · exact hexDigit_ne_newline _ (Nat.mod_lt _ (by norm_num)) h.symm
                  · exact hexDigit_ne_newline _ (Nat.mod_lt _ (by norm_num)) h.symm
                  · exact hexDigit_ne_newline _ (Nat.mod_lt _ (by norm_num)) h.symm
                · simp [h1, h2, h3, h4, h5, h6, h7, h8]
                  exact fun he => h3 he.symm

theorem newline_not_escList : ∀ l : List Char, '\n' ∉ escList l := by
  intro l
  induction l with
  | nil => simp [escList]
  | cons c cs ih =>
    rw [escList]
    intro hmem
    rcases List.mem_append.mp hmem with h | h
    · exact newline_not_escChar c h
    · exact ih h

theorem newline_not_printStr (s : String) : '\n' ∉ printStr s := by
  rw [printStr]
  intro hmem
  rcases List.mem_cons.mp hmem with h | h
  · exact absurd h (by decide)
  · rcases List.mem_append.mp h with h2 | h2
    · exact newline_not_escList s.data h2
    · simp at h2

theorem newline_not_natDigits (m : Nat) : '\n' ∉ natDigits m := by
  intro hmem
  have hdig := natDigits_all_digit m '\n' hmem
  exact absurd hdig (by decide)

theorem newline_not_printNum (n : Int) : '\n' ∉ printNum n := by
  unfold printNum
  by_cases hn : n < 0
  · simp only [hn, if_true]
    intro hmem
    rcases List.mem_cons.mp hmem with h | h
    · exact absurd h (by decide)
    · exact newline_not_natDigits _ h
  · simp only [hn, if_false]
    exact newline_not_natDigits _

mutual

theorem newline_not_printV : ∀ v : Json, '\n' ∉ printV v
  | .null => by simp [printV]
  | .bool true => by simp [printV]
  | .bool false => by simp [printV]
  | .num n => newline_not_printNum n
  | .str s => newline_not_printStr s
  | .arr .nil => by simp [printV]
  | .arr (.cons x xs) => by
    rw [printV]
    intro hmem
    simp at hmem
    rcases hmem with h | h
    · exact newline_not_printV x h
    · exact newline_not_printItems xs h
  | .obj .nil => by simp [printV]
  | .obj (.cons k v kvs) => by
    rw [printV]
    intro hmem
    simp at hmem
    rcases hmem with h | h | h
    · exact newline_not_printStr k h
    · exact newline_not_printV v h
    · exact newline_not_printMembers kvs h

theorem newline_not_printItems : ∀ xs : JsonList, '\n' ∉ printItems xs
  | .nil => by simp [printItems]
  | .cons x xs => by
    rw [printItems]
    intro hmem
    simp at hmem
    rcases hmem with h | h
    · exact newline_not_printV x h
    · exact newline_not_printItems xs h

theorem newline_not_printMembers : ∀ kvs : JsonObj, '\n' ∉ printMembers kvs
  | .nil => by simp [printMembers]
  | .cons k v kvs => by
    rw [printMembers]
    intro hmem
    simp at hmem
    rcases hmem with h | h | h
    · exact newline_not_printStr k h
    · exact newline_not_printV v h
    · exact newline_not_printMembers kvs h

end

/-- The serialized envelope contains no newline character; the newline
appended by `send_command` is the only one in the written line. -/
theorem newline_not_dumps (v : Json) : '\n' ∉ (dumps v).data :=
  newline_not_printV v

/-- C5 -/
theorem C5_send_command_not_started (st : BridgeState) (child : ChildIO)
    (method : String) (params : Json) (h : st.process = none) :
    send_command st child method params =
      some { result := .error (.exception "DaxStudio service not started"),
             state := st, trace := [] } := by
  unfold send_command
  rw [h]

theorem C5_witness :
    send_command ⟨none, false⟩ ⟨.ok (), .ok (), .ok "x"⟩ "completion" .null =
      some { result := .error (.exception "DaxStudio service not started"),
             state := ⟨none, false⟩, trace := [] } :=
  C5_send_command_not_started ⟨none, false⟩ ⟨.ok (), .ok (), .ok "x"⟩ "completion" .null rfl

/-- C6 -/
theorem C6_send_command_propagates (st : BridgeState) (child : ChildIO)
    (method : String) (params : Json) (e : PyErr) (evs : List Ev) (res : CallResult)
    (hstart : st.process.isSome = true) (hlock : st.lockHeld = false)
    (hbody : sendBody child method params = (.error e, evs))
    (hres : send_command st child method params = some res) :
    res.result = .error e ∧ res.trace = .acquire :: evs ++ [.release] := by
  obtain ⟨u, hu⟩ := Option.isSome_iff_exists.mp hstart
  unfold send_command at hres
  rw [hu, hlock, hbody] at hres
  simp at hres
  rw [← hres]
  exact ⟨rfl, by simp⟩

theorem C6_witness :
    ∃ res, send_command ⟨some (), false⟩ ⟨.ok (), .ok (), .ok ""⟩ "hover" .null = some res ∧
      res.result = .error (.exception "No response from DaxStudio service") := by
  obtain ⟨res, hres⟩ : ∃ res,
      send_command ⟨some (), false⟩ ⟨.ok (), .ok (), .ok ""⟩ "hover" .null = some res :=
    ⟨_, rfl⟩
  exact ⟨res, hres,
    (C6_send_command_propagates ⟨some (), false⟩ ⟨.ok (), .ok (), .ok ""⟩ "hover" .null
      (.exception "No response from DaxStudio service")
      [.write (dumps (envelope "hover" .null) ++ "\n"), .flush, .readLine] res
      rfl rfl rfl hres).1⟩

/-- C2 -/
theorem C2_send_command_write (st : BridgeState) (child : ChildIO) (method : String)
    (params : Json) (res : CallResult)
    (hstart : st.process.isSome = true) (hlock : st.lockHeld = false)
    (hwrite : child.writeRes = .ok ())
    (hres : send_command st child method params = some res) :
    res.trace.filter Ev.isWrite = [.write (dumps (envelope method params) ++ "\n")] ∧
    (∃ tr, res.trace = .acquire :: .write (dumps (envelope method params) ++ "\n")
        :: .flush :: tr) ∧
    '\n' ∉ (dumps (envelope method params)).data := by
  obtain ⟨u, hu⟩ := Option.isSome_iff_exists.mp hstart
  unfold send_command at hres
  rw [hu, hlock] at hres
  unfold sendBody at hres
  rw [hwrite] at hres
  refine ⟨?_, ?_, newline_not_dumps _⟩ <;>
  · cases hfl : child.flushRes with
    | error e =>
      rw [hfl] at hres
      simp at hres
      rw [← hres]
      simp [Ev.isWrite, List.filter]
    | ok a =>
      rw [hfl] at hres
      cases hrl : child.readlineRes with
      | error e =>
        rw [hrl] at hres
        simp at hres
        rw [← hres]
        simp [Ev.isWrite, List.filter]
      | ok line =>
        rw [hrl] at hres
        by_cases hemp : line = ""
        · rw [hemp] at hres
          simp at hres
          rw [← hres]
          simp [Ev.isWrite, List.filter]
        · cases hld : loads (pyStrip line) with
          | some j =>
            simp [hemp, hld] at hres
            rw [← hres]
            simp [Ev.isWrite, List.filter]
          | none =>
            simp [hemp, hld] at hres
            rw [← hres]
            simp [Ev.isWrite, List.filter]

theorem C2_witness :
    ∃ res, send_command ⟨some (), false⟩ ⟨.ok (), .ok (), .ok "{}\n"⟩ "completion" (.obj .nil)
        = some res ∧
      res.trace.filter Ev.isWrite
        = [.write (dumps (envelope "completion" (.obj .nil)) ++ "\n")] := by
  obtain ⟨res, hres⟩ : ∃ res,
      send_command ⟨some (), false⟩ ⟨.ok (), .ok (), .ok "{}\n"⟩ "completion" (.obj .nil)
        = some res := ⟨_, rfl⟩
  exact ⟨res, hres, (C2_send_command_write ⟨some (), false⟩ ⟨.ok (), .ok (), .ok "{}\n"⟩
    "completion" (.obj .nil) res rfl rfl rfl hres).1⟩

/-- C3 -/
theorem C3_send_command_roundtrip (st : BridgeState) (child : ChildIO)
    (method : String) (params o : Json) (res : CallResult)
    (hstart : st.process.isSome = true) (hlock : st.lockHeld = false)
    (hw : child.writeRes = .ok ()) (hf : child.flushRes = .ok ())
    (hr : child.readlineRes = .ok (dumps o ++ "\n"))
    (hres : send_command st child method params = some res) :
    res.result = .ok o := by
  obtain ⟨u, hu⟩ := Option.isSome_iff_exists.mp hstart
  unfold send_command at hres
  rw [hu, hlock] at hres
  unfold sendBody at hres
  rw [hw, hf, hr] at hres
  have hne : ¬ (dumps o ++ "\n" = "") := by
    intro h
    have h2 : (dumps o ++ "\n").data = [] := by rw [h]
    rw [String.data_append] at h2
    simp at h2
  simp [hne, loads_strip_dumps o] at hres
  rw [← hres]

/-- C4 -/
theorem C4_send_command_no_response (st : BridgeState) (child child2 : ChildIO)
    (method method2 : String) (params params2 o : Json) (res : CallResult)
    (hstart : st.process.isSome = true) (hlock : st.lockHeld = false)
    (hw : child.writeRes = .ok ()) (hf : child.flushRes = .ok ())
    (hr : child.readlineRes = .ok "")
    (hres : send_command st child method params = some res)
    (h2w : child2.writeRes = .ok ()) (h2f : child2.flushRes = .ok ())
    (h2r : child2.readlineRes = .ok (dumps o ++ "\n")) :
    res.result = .error (.exception "No response from DaxStudio service") ∧
    res.state.lockHeld = false ∧
    (∀ (child3 : ChildIO) (res3 : CallResult),
      send_command st child3 method params = some res3 → res3.state.lockHeld = false) ∧
    (send_command res.state child2 method2 params2).map CallResult.result = some (.ok o) := by
  obtain ⟨u, hu⟩ := Option.isSome_iff_exists.mp hstart
  unfold send_command at hres
  rw [hu, hlock] at hres
  unfold sendBody at hres
  rw [hw, hf, hr] at hres
  simp at hres
  have hne : ¬ (dumps o ++ "\n" = "") := by
    intro h
    have h2 : (dumps o ++ "\n").data = [] := by rw [h]
    rw [String.data_append] at h2
    simp at h2
  refine ⟨by rw [← hres], by rw [← hres], ?_, ?_⟩
  · intro child3 res3 h3
    unfold send_command at h3
    rw [hu, hlock] at h3
    rcases hsb : sendBody child3 method params with ⟨r, evs⟩
    rw [hsb] at h3
    simp at h3
    rw [← h3]
  · rw [← hres]
    simp [send_command, sendBody, h2w, h2f, h2r, hne, loads_strip_dumps o]

theorem C3_witness :
    ∃ res, send_command ⟨some (), false⟩
        ⟨.ok (), .ok (), .ok (dumps (.obj (.cons "x" (.num 1) .nil)) ++ "\n")⟩
        "completion" (.obj .nil) = some res ∧
      res.result = .ok (.obj (.cons "x" (.num 1) .nil)) := by
  obtain ⟨res, hres⟩ : ∃ res, send_command ⟨some (), false⟩
      ⟨.ok (), .ok (), .ok (dumps (.obj (.cons "x" (.num 1) .nil)) ++ "\n")⟩
      "completion" (.obj .nil) = some res := ⟨_, rfl⟩
  exact ⟨res, hres, C3_send_command_roundtrip ⟨some (), false⟩ _ "completion" (.obj .nil)
    _ res rfl rfl rfl rfl rfl hres⟩

theorem C4_witness :
    ∃ res, send_command ⟨some (), false⟩ ⟨.ok (), .ok (), .ok ""⟩ "diagnostics" .null
        = some res ∧
      res.result = .error (.exception "No response from DaxStudio service") ∧
      res.state.lockHeld = false ∧
      (send_command res.state ⟨.ok (), .ok (), .ok (dumps (.num 7) ++ "\n")⟩ "hover" .null).map
        CallResult.result = some (.ok (.num 7)) := by
  obtain ⟨res, hres⟩ : ∃ res,
      send_command ⟨some (), false⟩ ⟨.ok (), .ok (), .ok ""⟩ "diagnostics" .null = some res :=
    ⟨_, rfl⟩
  have h := C4_send_command_no_response ⟨some (), false⟩ ⟨.ok (), .ok (), .ok ""⟩
    ⟨.ok (), .ok (), .ok (dumps (.num 7) ++ "\n")⟩ "diagnostics" "hover" .null .null (.num 7)
    res rfl rfl rfl rfl rfl hres rfl rfl rfl
  exact ⟨res, hres, h.1, h.2.1, h.2.2.2⟩

/-- C7 -/
theorem C7_completion_degrades :
    (∀ e : PyErr, completion_handler (.error e) = { is_incomplete := .bool false, items := [] }) ∧
    (∀ (resp : Json) (e : PyErr), completionBody resp = .error e →
      completion_handler (.ok resp) = { is_incomplete := .bool false, items := [] }) := by
  constructor
  · intro e
    rfl
  · intro resp e h
    unfold completion_handler
    simp [Bind.bind, Except.bind, h]

theorem C7_witness :
    completion_handler (.ok (.num 5)) = { is_incomplete := .bool false, items := [] } :=
  C7_completion_degrades.2 (.num 5) .typeError rfl

/-- C8 -/
theorem C8_error_field_neutral (resp : Json) (h : pyIn "error" resp = .ok true) :
    completion_handler (.ok resp) = { is_incomplete := .bool false, items := [] } ∧
    diagnostic_handler (.ok resp) = { items := [] } := by
  constructor
  · unfold completion_handler completionBody
    simp [Bind.bind, Except.bind, h, Pure.pure, Except.pure]
  · unfold diagnostic_handler diagnosticBody
    simp [Bind.bind, Except.bind, h, Pure.pure, Except.pure]

theorem C8_witness :
    completion_handler (.ok (.obj (.cons "error" (.str "boom") .nil)))
        = { is_incomplete := .bool false, items := [] } ∧
    diagnostic_handler (.ok (.obj (.cons "error" (.str "boom") .nil))) = { items := [] } :=
  C8_error_field_neutral (.obj (.cons "error" (.str "boom") .nil)) rfl

/-- C9 -/
theorem C9_convert_completion_kind_total (k : Int) :
    (k = 1 → convert_completion_kind k = .Text) ∧
    (k = 2 → convert_completion_kind k = .Method) ∧
    (k = 3 → convert_completion_kind k = .Function) ∧
    (k = 5 → convert_completion_kind k = .Field) ∧
    (k = 6 → convert_completion_kind k = .Variable) ∧
    (k = 7 → convert_completion_kind k = .Class) ∧
    (k = 14 → convert_completion_kind k = .Keyword) ∧
    (k ≠ 1 → k ≠ 2 → k ≠ 3 → k ≠ 5 → k ≠ 6 → k ≠ 7 → k ≠ 14 →
      convert_completion_kind k = .Text) := by
  unfold convert_completion_kind
  refine ⟨?_, ?_, ?_, ?_, ?_, ?_, ?_, ?_⟩
  · intro h; simp [h]
  · intro h; simp [h]
  · intro h; simp [h]
  · intro h; simp [h]
  · intro h; simp [h]
  · intro h; simp [h]
  · intro h; simp [h]
  · intro h1 h2 h3 h5 h6 h7 h14
    simp [h1, h2, h3, h5, h6, h7, h14]

theorem C9_witness :
    convert_completion_kind 4 = .Text ∧ convert_completion_kind 14 = .Keyword :=
  ⟨(C9_convert_completion_kind_total 4).2.2.2.2.2.2.2 (by decide) (by decide) (by decide)
      (by decide) (by decide) (by decide) (by decide),
    (C9_convert_completion_kind_total 14).2.2.2.2.2.2.1 rfl⟩

/-- C10 counterexample -/
theorem C10_counterexample :
    convert_range (.obj (.cons "start" (.num 5) .nil)) = .error .attributeError := rfl

/-- C10 amended -/
theorem C10_convert_range_total (rd : Json) :
    (rd.truthy = false → convert_range rd = .ok zeroRange) ∧
    (∀ kvs skvs ekvs, rd = .obj kvs →
      (kvs.lookup "start").getD (.obj .nil) = .obj skvs →
      (kvs.lookup "end").getD (.obj .nil) = .obj ekvs →
      convert_range rd = .ok
        { start := { line := (skvs.lookup "line").getD (.num 0),
                     character := (skvs.lookup "character").getD (.num 0) },
          «end» := { line := (ekvs.lookup "line").getD (.num 0),
                     character := (ekvs.lookup "character").getD (.num 0) } }) := by
  constructor
  · intro h
    unfold convert_range
    simp [h, zeroRange, Pure.pure, Except.pure]
  · intro kvs skvs ekvs hrd hs he
    subst hrd
    unfold convert_range
    by_cases ht : Json.truthy (.obj kvs) = true
    · simp only [ht, not_true, if_false, Bind.bind, Except.bind, pyGet, hs, he, Pure.pure,
        Except.pure]
    · have hkvs : kvs = .nil := by
        cases kvs with
        | nil => rfl
        | cons a b c => simp [Json.truthy] at ht
      subst hkvs
      simp [Json.truthy] at hs he ⊢
      simp [JsonObj.lookup] at hs he
      rw [← hs, ← he]
      simp [zeroRange, JsonObj.lookup, Pure.pure, Except.pure]

theorem C10_witness :
    convert_range .null = .ok zeroRange ∧
    convert_range (.obj (.cons "start" (.obj (.cons "line" (.num 3) .nil)) .nil))
      = .ok { start := { line := .num 3, character := .num 0 },
              «end» := { line := .num 0, character := .num 0 } } := by
  constructor
  · exact (C10_convert_range_total .null).1 rfl
  · have h := (C10_convert_range_total
      (.obj (.cons "start" (.obj (.cons "line" (.num 3) .nil)) .nil))).2
      (.cons "start" (.obj (.cons "line" (.num 3) .nil)) .nil)
      (.cons "line" (.num 3) .nil) .nil rfl rfl rfl
    simpa [JsonObj.lookup] using h

/-- C1 counterexample -/
theorem C1_counterexample :
    hover_handler (.ok (.obj (.cons "contents" (.str "**Sum**: adds numbers") .nil)))
      ≠ some { contents := { kind := .markdown, value := .str "**Sum**: adds numbers" },
               range := some zeroRange } := by
  intro h
  rw [show hover_handler (.ok (.obj (.cons "contents" (.str "**Sum**: adds numbers") .nil)))
      = some { contents := { kind := .markdown, value := .str "**Sum**: adds numbers" },
               range := none } from rfl] at h
  simp at h

/-- C1 amended -/
theorem C1_hover_no_range (resp c rj : Json)
    (herr : pyIn "error" resp = .ok false)
    (hc : pyGet resp "contents" .null = .ok c)
    (hct : c.truthy = true)
    (hr : pyGet resp "range" .null = .ok rj)
    (hrf : rj.truthy = false) :
    hover_handler (.ok resp)
      = some { contents := { kind := .markdown, value := c }, range := none } := by
  unfold hover_handler hoverBody
  simp [Bind.bind, Except.bind, herr, hc, hct, hrf, hr, Pure.pure, Except.pure]

theorem C1_witness :
    hover_handler (.ok (.obj (.cons "contents" (.str "**Sum**: adds numbers") .nil)))
      = some { contents := { kind := .markdown, value := .str "**Sum**: adds numbers" },
               range := none } :=
  C1_hover_no_range (.obj (.cons "contents" (.str "**Sum**: adds numbers") .nil))
    (.str "**Sum**: adds numbers") .null rfl rfl rfl rfl rfl
